import Mathlib

/-!
A shallow embedding of gulp-cached-remember (src/index.js): a two-stage,
order-preserving change-detection cache for vinyl files flowing through a
gulp pipeline. The module keeps a process-wide registry of named caches;
`caching` filters a run's input down to new/changed files while recording
them, `remember` snapshots files and replays the whole cache at end of
input, and a per-cache master/observer protocol with a pending-flush queue
coordinates concurrent runs sharing one cache name.

JS values are modelled explicitly: a string-or-undefined value is
`Option String`, JS truthiness of such a value is `truthy`, object maps
keyed by file path are functions `String → Option CacheEntry`, and a
handler that would raise a TypeError is `Option`-valued or carries a
`crashed` flag.
-/

namespace GCR

/-- A JS string-or-undefined value: `none` is `undefined`. -/
abbrev JSStr := Option String

/-- JS truthiness of a string-or-undefined value: `undefined` and the empty
string are falsy, every other string is truthy. -/
def truthy : JSStr → Bool
  | none => false
  | some s => !s.isEmpty

/-- The content of a vinyl file: a buffer holding its utf8 text, or
stream-form content (not bufferable, no checksum derivable from it). -/
inductive Contents where
  | buffer (text : String)
  | stream
deriving DecidableEq

/-- A vinyl file: its path (the stable id), an optional preset `checksum`
property, and its contents. -/
structure File where
  path : String
  checksum : JSStr
  contents : Contents
deriving DecidableEq

def File.isBuffer (f : File) : Bool :=
  match f.contents with
  | .buffer _ => true
  | .stream => false

def File.bufferText (f : File) : String :=
  match f.contents with
  | .buffer t => t
  | .stream => ""

/-- src/index.js getChecksum (lines 157-171): the preset `file.checksum` if
truthy; for buffer files with a falsy preset, the utf8 text of the contents,
or its digest when `useHash`. `hash` stands for the external md5 primitive
(the crypto module is outside the repository). -/
def getChecksum (hash : String → String) (useHash : Bool) (f : File) : JSStr :=
  if truthy f.checksum = false ∧ f.isBuffer = true then
    some (if useHash then hash f.bufferText else f.bufferText)
  else
    f.checksum

/-- One cache entry: the last stored checksum and the last stored snapshot
(`data` in the source); both start absent. -/
structure CacheEntry where
  checksum : JSStr := none
  data : Option File := none
deriving DecidableEq

/-- The `files` object of a cache: a JS object keyed by file path. -/
def FileMap : Type := String → Option CacheEntry

def FileMap.set (m : FileMap) (k : String) (v : CacheEntry) : FileMap :=
  fun x => if x = k then some v else m x

/-- A named cache record (src/index.js line 31): the replay order, the
entry map and the quiescence flag `ended`. -/
structure Cache where
  order : List String
  files : FileMap
  ended : Bool

/-- The notifications the stages emit (the `pluginName + ':...'` events). -/
inductive Event where
  | fileModified (cacheName : String) (filePath : String)
  | cacheProcessed (cacheName : String) (isMaster : Bool)
  | cacheFlush (cacheName : String) (isMaster : Bool)
  | cacheNeedsFlushing (cacheName : String)
deriving DecidableEq

/-- The result of one invocation of the `caching` transform: the cache
afterwards, the files pushed downstream and the events emitted. -/
structure StepOut where
  cache : Cache
  pushed : List File
  events : List Event

/-- src/index.js caching (lines 46-89). Observers return the callback at
once, pushing nothing and touching nothing. A master clears `ended`,
computes the checksum, inserts an unseen id into `order` (at the tail for a
cache this run created, else by `newPos`) with a fresh empty entry, and
pushes the file iff the checksum is falsy or differs from the entry's
stored one, storing the new checksum and emitting `file-modified` unless
this run created the cache. `previousFile` is a local of each `caching`
call in the source (declared at line 49, assigned only at line 87, right
before the call returns), so at line 67 it is always undefined and `newPos`
is always 0. The first disjunct of line 74, `!cacheFiles[id]`, is always
false by then because the entry was just created when missing, so only the
checksum tests remain. -/
def caching (hash : String → String) (useHash : Bool) (cacheName : String)
    (isMaster isNewCache : Bool) (c : Cache) (f : File) : StepOut :=
  if isMaster = false then
    ⟨c, [], []⟩
  else
    let id := f.path
    let c1 : Cache := { c with ended := false }
    let chk := getChecksum hash useHash f
    let inserted : Cache × CacheEntry :=
      match c1.files id with
      | some e => (c1, e)
      | none =>
        let newOrder := if isNewCache then c1.order ++ [id] else id :: c1.order
        ({ c1 with order := newOrder, files := c1.files.set id {} }, {})
    let c2 := inserted.1
    let e := inserted.2
    if truthy chk = false ∨ chk ≠ e.checksum then
      ⟨{ c2 with files := c2.files.set id { e with checksum := chk } }, [f],
        if isNewCache then [] else [.fileModified cacheName id]⟩
    else
      ⟨c2, [], []⟩

/-- src/index.js endCaching (lines 91-96): a master closes its new-cache
status; the returned value is the run's `isNewCache` afterwards. -/
def endCaching (isMaster isNewCache : Bool) : Bool :=
  if isMaster then false else isNewCache

/-- src/index.js remember (lines 98-103): a master stores the file as the
`data` snapshot of its path's entry; `none` is the TypeError raised at
line 100 when the entry is missing. Observers do nothing. -/
def remember (isMaster : Bool) (c : Cache) (f : File) : Option Cache :=
  if isMaster then
    match c.files f.path with
    | none => none
    | some e => some { c with files := c.files.set f.path { e with data := some f } }
  else
    some c

/-- The pushes of src/index.js flush (lines 131-134): each path of `order`
in turn contributes its entry's `data` field, which may be undefined. The
Bool is `true` when the forEach raised a TypeError because a path of
`order` had no entry at all; the list then holds the pushes made before
the throw. -/
def flushPushes (order : List String) (files : FileMap) : List (Option File) × Bool :=
  match order with
  | [] => ([], false)
  | id :: rest =>
    match files id with
    | none => ([], true)
    | some e =>
      let r := flushPushes rest files
      (e.data :: r.1, r.2)

/-- The flush sequence as the spec's order-preservation sentence words it:
the `order` sequence restricted to entries that have a stored snapshot,
entries lacking one being skipped. Stated from the spec, for comparison
with `flushPushes`, which is translated from the source. -/
def flushSpecSkip (c : Cache) : List File :=
  c.order.filterMap (fun id => (c.files id).bind CacheEntry.data)

/-- The result of one endRemember call: the cache and pending-flush queue
afterwards, the values pushed on this run's stream, the events emitted on
this run's stream, the tokens of the runs whose flush this call invoked
(in invocation order), and whether the call threw mid-flush. -/
structure EndOut where
  cache : Cache
  queue : List Nat
  pushed : List (Option File)
  events : List Event
  flushedNow : List Nat
  crashed : Bool

/-- src/index.js endRemember (lines 105-129) for the run identified by
`runTok`; `q` is `needsFlushing[cacheName]`, holding the tokens of the runs
whose bound flush closures are queued. A master, or any run finding the
cache already ended, emits `cache-processed`, flushes now (the pushes, then
`cache-flush`), marks the cache ended, then invokes every queued flush in
order and clears the queue; its own flush comes first in `flushedNow`. If
the flush throws, `ended` is never set and nothing drains. Any other run
emits `cache-needsFlushing` and appends its own flush to the queue,
flushing nothing now. -/
def endRemember (cacheName : String) (runTok : Nat) (isMaster : Bool)
    (c : Cache) (q : List Nat) : EndOut :=
  if isMaster || c.ended then
    let r := flushPushes c.order c.files
    if r.2 then
      ⟨c, q, r.1, [.cacheProcessed cacheName isMaster], [], true⟩
    else
      ⟨{ c with ended := true }, [], r.1,
        [.cacheProcessed cacheName isMaster, .cacheFlush cacheName isMaster],
        runTok :: q, false⟩
  else
    ⟨c, q ++ [runTok], [], [.cacheNeedsFlushing cacheName], [], false⟩

/-! ## The registry and its name resolution -/

/-- src/index.js line 5: the name given a cache when none is provided. -/
def defaultName : String := "_default"

/-- A JS value passed as a cacheName argument that passes the type check of
the public entry points: undefined, a number or a string. -/
inductive NameArg where
  | undef
  | num (n : Int)
  | str (s : String)

/-- The property key a JS value becomes when it indexes the `caches`
object: numbers are stringified. -/
def literalKey : NameArg → String
  | .undef => "undefined"
  | .num n => toString n
  | .str s => s

/-- JS falsiness of a cacheName argument: undefined, 0 and the empty
string are falsy. -/
def jsFalsy : NameArg → Bool
  | .undef => true
  | .num n => n == 0
  | .str s => s.isEmpty

/-- src/index.js line 27: `cacheName = cacheName || defaultName`; the
resolved value then keys the registry. -/
def resolveCreateName (a : NameArg) : String :=
  if jsFalsy a then defaultName else literalKey a

/-- The `caches` object: a map from key to cache record. -/
def Registry : Type := String → Option Cache

def Registry.set (r : Registry) (k : String) (c : Option Cache) : Registry :=
  fun x => if x = k then c else r x

def emptyReg : Registry := fun _ => none

/-- What one gulpCachedRemember call does to the registry before returning
its stage pair: the registry afterwards, the key the run attached to, and
the run's `isNewCache` and `isMaster` flags. -/
structure AttachOut where
  reg : Registry
  key : String
  isNewCache : Bool
  isMaster : Bool

/-- src/index.js gulpCachedRemember lines 27-44: resolve the name, create
the cache when missing (with `ended` true), then take mastership iff the
cache's `ended` flag is set, clearing it. -/
def createAttach (reg : Registry) (a : NameArg) : AttachOut :=
  let key := resolveCreateName a
  let found : Cache × Bool :=
    match reg key with
    | some c => (c, false)
    | none => (⟨[], fun _ => none, true⟩, true)
  let c := found.1
  if c.ended then
    ⟨reg.set key (some { c with ended := false }), key, found.2, true⟩
  else
    ⟨reg.set key (some c), key, found.2, false⟩

/-- src/index.js cacheFor (lines 231-240) called with an explicit number
or string argument: the raw lookup under the literal key, with no
falsy-to-default resolution. -/
def cacheForArg (reg : Registry) (a : NameArg) : Option Cache :=
  reg (literalKey a)

/-- src/index.js forgetAll (lines 208-223) called with an explicit number
or string argument: deletes the record under the literal key, a warning
logged when it is absent. -/
def forgetAllArg (reg : Registry) (a : NameArg) : Registry :=
  match reg (literalKey a) with
  | none => reg
  | some _ => reg.set (literalKey a) none

/-! ## The multi-run coordination system

One cache name observed across interleaved runs: the cache record, its
pending-flush queue and the per-run contexts created so far. Each
operation applies the per-item or end-of-input handler of one run,
exactly as the source defines it. -/

/-- The per-run mutable context one gulpCachedRemember call closes over. -/
structure Run where
  isMaster : Bool
  isNewCache : Bool
  done : Bool
deriving DecidableEq

/-- The shared state for one cache name: whether the registry holds the
cache yet, the cache record, `needsFlushing[cacheName]`, and the runs
attached so far (a run's token is its index). -/
structure Sys where
  cachePresent : Bool
  cache : Cache
  queue : List Nat
  runs : List Run

/-- The observable operations: a new gulpCachedRemember call attaching to
this cache name, one `caching` item for run `i`, run `i`'s endCaching, and
run `i`'s endRemember. -/
inductive Op where
  | attach
  | cachingItem (i : Nat) (f : File)
  | endCach (i : Nat)
  | endRem (i : Nat)

/-- Apply one operation, following src/index.js: attach mirrors lines
29-44 (creation gives `ended := true`, then the mastership check), the
others dispatch to the corresponding handler of the given run. An endRem
for a run whose remember stream already ended is a no-op. -/
def applyOp (hash : String → String) (useHash : Bool) (cacheName : String)
    (s : Sys) : Op → Sys
  | .attach =>
    let base : Cache × List Nat × Bool :=
      if s.cachePresent then (s.cache, s.queue, false)
      else (⟨[], fun _ => none, true⟩, [], true)
    let c := base.1
    if c.ended then
      ⟨true, { c with ended := false }, base.2.1, s.runs ++ [⟨true, base.2.2, false⟩]⟩
    else
      ⟨true, c, base.2.1, s.runs ++ [⟨false, base.2.2, false⟩]⟩
  | .cachingItem i f =>
    match s.runs[i]? with
    | none => s
    | some r =>
      { s with cache := (caching hash useHash cacheName r.isMaster r.isNewCache s.cache f).cache }
  | .endCach i =>
    match s.runs[i]? with
    | none => s
    | some r =>
      { s with runs := s.runs.set i { r with isNewCache := endCaching r.isMaster r.isNewCache } }
  | .endRem i =>
    match s.runs[i]? with
    | none => s
    | some r =>
      if r.done then s
      else
        let out := endRemember cacheName i r.isMaster s.cache s.queue
        { s with cache := out.cache, queue := out.queue,
                 runs := s.runs.set i { r with done := true } }

/-- Before any run attaches: no cache record exists for this name. -/
def initSys : Sys := ⟨false, ⟨[], fun _ => none, true⟩, [], []⟩

/-- A run that holds mastership and whose remember stage has not ended. -/
def masterActive (r : Run) : Bool := r.isMaster && !r.done

/-- How many attached runs currently hold mastership. -/
def activeMasters (s : Sys) : Nat := s.runs.countP masterActive

/-- The state after a sequence of operations against a fresh name. -/
def runTrace (hash : String → String) (useHash : Bool) (cacheName : String)
    (ops : List Op) : Sys :=
  ops.foldl (applyOp hash useHash cacheName) initSys

/-- The mastership invariant: before the cache exists no run is attached;
a quiescent cache has no active master; never more than one active
master. -/
def sysInv (s : Sys) : Prop :=
  (s.cachePresent = false → s.runs = []) ∧
  (s.cache.ended = true → activeMasters s = 0) ∧
  activeMasters s ≤ 1

/-! ## Concrete inputs used by the counterexamples and witnesses -/

/-- A buffer file at path a with text X. -/
def fEx : File := ⟨"a", none, .buffer "X"⟩

/-- A buffer file at path a with empty text: its computed checksum is the
empty string, which is JS-falsy. -/
def fEmptyBuf : File := ⟨"a", none, .buffer ""⟩

/-- An empty, non-quiescent cache (another run owns it). -/
def cObs : Cache := ⟨[], fun _ => none, false⟩

/-- A cache whose one entry stores the empty string as its checksum. -/
def cStoredEmpty : Cache := ⟨["a"], fun x => if x = "a" then some ⟨some "", none⟩ else none, false⟩

/-- A cache whose one entry has a checksum but no snapshot yet. -/
def cNoSnap : Cache := ⟨["a"], fun x => if x = "a" then some ⟨none, none⟩ else none, true⟩

/-- A cache whose one entry holds both a checksum and a snapshot. -/
def cSnapX : Cache := ⟨["a"], fun x => if x = "a" then some ⟨some "X", some fEx⟩ else none, false⟩

/-- Like cSnapX but quiescent. -/
def cSnapXEnded : Cache := ⟨["a"], fun x => if x = "a" then some ⟨some "X", some fEx⟩ else none, true⟩

/-- A cache with one entry whose snapshot is absent (checksum stored),
as a pre-existing cache a later master run attaches to. -/
def cPre : Cache := ⟨["x"], fun p => if p = "x" then some ⟨some "X", none⟩ else none, false⟩

/-- Two files with ids unseen in cPre. -/
def fNew1 : File := ⟨"f1", none, .buffer "A"⟩

def fNew2 : File := ⟨"f2", none, .buffer "B"⟩

/-- A cache holding an entry for path a with a checksum but no snapshot. -/
def cEntryA : Cache := ⟨["a"], fun x => if x = "a" then some ⟨some "X", none⟩ else none, false⟩

end GCR


namespace GCR

/-! ## Helper lemmas -/

lemma FileMap.set_self (m : FileMap) (k : String) (v : CacheEntry) :
    (m.set k v) k = some v := by
  simp [FileMap.set]

lemma flushPushes_eq (files : FileMap) : ∀ (order : List String),
    (∀ id ∈ order, (files id).isSome = true) →
    flushPushes order files = (order.map (fun id => (files id).bind CacheEntry.data), false) := by
  intro order
  induction order with
  | nil => intro _; rfl
  | cons a t ih =>
    intro h
    have ha := h a (by simp)
    cases hm : files a with
    | none => rw [hm] at ha; simp at ha
    | some e =>
      have ht := fun id hid => h id (List.mem_cons_of_mem a hid)
      simp [flushPushes, hm, ih ht]

lemma countP_set_add (p : Run → Bool) :
    ∀ (l : List Run) (i : Nat) (r rNew : Run), l[i]? = some r →
      (l.set i rNew).countP p + (if p r then 1 else 0)
        = l.countP p + (if p rNew then 1 else 0) := by
  intro l
  induction l with
  | nil => intro i r rNew h; simp at h
  | cons a t ih =>
    intro i r rNew h
    cases i with
    | zero =>
      rw [List.getElem?_cons_zero] at h
      injection h with h
      subst h
      simp only [List.set, List.countP_cons]
      by_cases hpa : p a <;> by_cases hpn : p rNew <;> simp [hpa, hpn]
    | succ n =>
      rw [List.getElem?_cons_succ] at h
      have hrec := ih n r rNew h
      simp only [List.set, List.countP_cons]
      omega

lemma countP_pos_of_getElem? (p : Run → Bool) (l : List Run) (i : Nat) (r : Run)
    (h : l[i]? = some r) (hp : p r = true) : 1 ≤ l.countP p := by
  induction l generalizing i with
  | nil => simp at h
  | cons a t ih =>
    cases i with
    | zero =>
      rw [List.getElem?_cons_zero] at h
      injection h with h
      subst h
      simp [List.countP_cons, hp]
    | succ n =>
      rw [List.getElem?_cons_succ] at h
      have := ih n h
      simp only [List.countP_cons]
      omega

lemma caching_ended_master (hash : String → String) (useHash : Bool) (cacheName : String)
    (isNewCache : Bool) (c : Cache) (f : File) :
    (caching hash useHash cacheName true isNewCache c f).cache.ended = false := by
  obtain ⟨order, files, ended⟩ := c
  cases hm : files f.path <;> simp only [caching] <;> simp [hm] <;> split <;> rfl

lemma endRemember_ended_observer (cacheName : String) (t : Nat) (c : Cache) (q : List Nat)
    (hc : c.ended = false) :
    (endRemember cacheName t false c q).cache.ended = false := by
  simp [endRemember, hc]

lemma endRemember_ended_quiescent (cacheName : String) (t : Nat) (c : Cache) (q : List Nat)
    (hc : c.ended = true) :
    (endRemember cacheName t false c q).cache.ended = true := by
  cases hcr : (flushPushes c.order c.files).2 <;> simp [endRemember, hc, hcr]

lemma sysInv_applyOp (hash : String → String) (useHash : Bool) (cacheName : String)
    (s : Sys) (op : Op) (h : sysInv s) : sysInv (applyOp hash useHash cacheName s op) := by
  obtain ⟨h1, h2, h3⟩ := h
  cases op with
  | attach =>
    cases hp : s.cachePresent with
    | false =>
      have hr : s.runs = [] := h1 hp
      have happ : applyOp hash useHash cacheName s .attach
          = ⟨true, ⟨[], fun _ => none, false⟩, [], s.runs ++ [⟨true, true, false⟩]⟩ := by
        simp [applyOp, hp]
      rw [happ]
      refine ⟨by simp, by simp, ?_⟩
      simp [activeMasters, hr, List.countP_cons, masterActive]
    | true =>
      cases he : s.cache.ended with
      | true =>
        have hz : List.countP masterActive s.runs = 0 := h2 he
        have happ : applyOp hash useHash cacheName s .attach
            = ⟨true, { s.cache with ended := false }, s.queue, s.runs ++ [⟨true, false, false⟩]⟩ := by
          simp [applyOp, hp, he]
        rw [happ]
        refine ⟨by simp, by simp, ?_⟩
        simp [activeMasters, List.countP_append, List.countP_cons, masterActive, hz]
      | false =>
        have happ : applyOp hash useHash cacheName s .attach
            = ⟨true, s.cache, s.queue, s.runs ++ [⟨false, false, false⟩]⟩ := by
          simp [applyOp, hp, he]
        rw [happ]
        refine ⟨by simp, fun hend => absurd hend (by simp [he]), ?_⟩
        have hkeep : List.countP masterActive (s.runs ++ [⟨false, false, false⟩])
            = List.countP masterActive s.runs := by
          simp [List.countP_append, List.countP_cons, masterActive]
        simpa [activeMasters, hkeep] using h3
  | cachingItem i f =>
    cases hg : s.runs[i]? with
    | none =>
      have happ : applyOp hash useHash cacheName s (.cachingItem i f) = s := by
        simp [applyOp, hg]
      rw [happ]; exact ⟨h1, h2, h3⟩
    | some r =>
      have happ : applyOp hash useHash cacheName s (.cachingItem i f)
          = { s with cache := (caching hash useHash cacheName r.isMaster r.isNewCache s.cache f).cache } := by
        simp [applyOp, hg]
      rw [happ]
      refine ⟨fun hcp => h1 hcp, ?_, h3⟩
      intro hend
      cases hrm : r.isMaster with
      | true =>
        rw [hrm, caching_ended_master] at hend
        exact absurd hend (by simp)
      | false =>
        rw [hrm] at hend
        have hobs : (caching hash useHash cacheName false r.isNewCache s.cache f).cache = s.cache := rfl
        rw [hobs] at hend
        exact h2 hend
  | endCach i =>
    cases hg : s.runs[i]? with
    | none =>
      have happ : applyOp hash useHash cacheName s (.endCach i) = s := by
        simp [applyOp, hg]
      rw [happ]; exact ⟨h1, h2, h3⟩
    | some r =>
      have happ : applyOp hash useHash cacheName s (.endCach i)
          = { s with runs := s.runs.set i { r with isNewCache := endCaching r.isMaster r.isNewCache } } := by
        simp [applyOp, hg]
      have hcnt := countP_set_add masterActive s.runs i r
        { r with isNewCache := endCaching r.isMaster r.isNewCache } hg
      have hsame : masterActive { r with isNewCache := endCaching r.isMaster r.isNewCache }
          = masterActive r := rfl
      rw [hsame] at hcnt
      have hceq : List.countP masterActive
          (s.runs.set i { r with isNewCache := endCaching r.isMaster r.isNewCache })
          = List.countP masterActive s.runs := by omega
      rw [happ]
      refine ⟨?_, fun hend => ?_, ?_⟩
      · intro hcp
        have hnil : s.runs = [] := h1 hcp
        simp [hnil]
      · simpa [activeMasters, hceq] using h2 hend
      · simpa [activeMasters, hceq] using h3
  | endRem i =>
    cases hg : s.runs[i]? with
    | none =>
      have happ : applyOp hash useHash cacheName s (.endRem i) = s := by
        simp [applyOp, hg]
      rw [happ]; exact ⟨h1, h2, h3⟩
    | some r =>
      cases hd : r.done with
      | true =>
        have happ : applyOp hash useHash cacheName s (.endRem i) = s := by
          simp [applyOp, hg, hd]
        rw [happ]; exact ⟨h1, h2, h3⟩
      | false =>
        have happ : applyOp hash useHash cacheName s (.endRem i)
            = { s with cache := (endRemember cacheName i r.isMaster s.cache s.queue).cache,
                       queue := (endRemember cacheName i r.isMaster s.cache s.queue).queue,
                       runs := s.runs.set i { r with done := true } } := by
          simp [applyOp, hg, hd]
        have hcnt := countP_set_add masterActive s.runs i r { r with done := true } hg
        have hz2 : masterActive { r with done := true } = false := by
          simp [masterActive]
        rw [hz2] at hcnt
        simp only [if_neg Bool.false_ne_true, Nat.add_zero] at hcnt
        rw [happ]
        rcases Bool.eq_false_or_eq_true r.isMaster with hrm | hrm
        · have hact : masterActive r = true := by simp [masterActive, hrm, hd]
          rw [hact] at hcnt
          simp at hcnt
          have hge : 1 ≤ List.countP masterActive s.runs :=
            countP_pos_of_getElem? masterActive s.runs i r hg hact
          have hle : List.countP masterActive s.runs ≤ 1 := h3
          have hzero : List.countP masterActive (s.runs.set i { r with done := true }) = 0 := by
            omega
          refine ⟨?_, fun _ => ?_, ?_⟩
          · intro hcp
            have hnil : s.runs = [] := h1 hcp
            simp [hnil]
          · simpa [activeMasters] using hzero
          · simp [activeMasters, hzero]
        · have hact : masterActive r = false := by simp [masterActive, hrm]
          rw [hact] at hcnt
          simp only [if_neg Bool.false_ne_true, Nat.add_zero] at hcnt
          refine ⟨?_, fun hend => ?_, ?_⟩
          · intro hcp
            have hnil : s.runs = [] := h1 hcp
            simp [hnil]
          · cases hce : s.cache.ended with
            | true =>
              have hz : List.countP masterActive s.runs = 0 := h2 hce
              simpa [activeMasters, hcnt] using hz
            | false =>
              rw [hrm, endRemember_ended_observer cacheName i s.cache s.queue hce] at hend
              exact absurd hend (by simp)
          · simpa [activeMasters, hcnt] using h3

lemma sysInv_initSys : sysInv initSys :=
  ⟨fun _ => rfl, fun _ => rfl, by simp [activeMasters, initSys]⟩

lemma sysInv_foldl (hash : String → String) (useHash : Bool) (cacheName : String) :
    ∀ (ops : List Op) (s : Sys), sysInv s → sysInv (ops.foldl (applyOp hash useHash cacheName) s) := by
  intro ops
  induction ops with
  | nil => intro s hs; exact hs
  | cons op rest ih =>
    intro s hs
    exact ih (applyOp hash useHash cacheName s op) (sysInv_applyOp hash useHash cacheName s op hs)

/-! ## The claims -/

/-- C1 (counterexample): an observer run's Cache Stage does not pass its
input item through: on a concrete non-master run, processing a file pushes
nothing, so the output does not contain the input item. -/
theorem c1_counterexample :
    (caching (fun s => s) false "n" false false cObs fEx).pushed ≠ [fEx] := by decide

/-- C1 (amended): an observer run's Cache Stage performs no registry
mutation, but instead of passing each item through it absorbs it: the call
returns the cache unchanged with no push and no event, so the observer's
output stream is empty rather than equal to its input. -/
theorem c1_observer_cached_absorbs (hash : String → String) (useHash : Bool)
    (cacheName : String) (isNewCache : Bool) (c : Cache) (f : File) :
    caching hash useHash cacheName false isNewCache c f = ⟨c, [], []⟩ := rfl

/-- C2: an observer whose Remember Stage ends while the cache is not
quiescent flushes nothing synchronously (no push, no cache-flush event,
nothing invoked); its flush action is appended to the pending queue; and
the later authoritative end by a master invokes the queued flushes in FIFO
order right after its own flush, clears the queue, and invokes the
observer's flush exactly once. -/
theorem c2_deferred_flush_fifo (cacheName : String) (t1 t2 : Nat) (c : Cache) (q : List Nat)
    (hend : c.ended = false)
    (hcov : ∀ id ∈ c.order, (c.files id).isSome = true)
    (hq : t1 ∉ q) (ht : t1 ≠ t2) :
    (endRemember cacheName t1 false c q).pushed = [] ∧
    (endRemember cacheName t1 false c q).flushedNow = [] ∧
    (∀ m, Event.cacheFlush cacheName m ∉ (endRemember cacheName t1 false c q).events) ∧
    (endRemember cacheName t1 false c q).queue = q ++ [t1] ∧
    (endRemember cacheName t2 true (endRemember cacheName t1 false c q).cache
        (endRemember cacheName t1 false c q).queue).flushedNow = t2 :: (q ++ [t1]) ∧
    (endRemember cacheName t2 true (endRemember cacheName t1 false c q).cache
        (endRemember cacheName t1 false c q).queue).queue = [] ∧
    (endRemember cacheName t2 true (endRemember cacheName t1 false c q).cache
        (endRemember cacheName t1 false c q).queue).flushedNow.count t1 = 1 := by
  have hnc : (flushPushes c.order c.files).2 = false := by
    rw [flushPushes_eq c.files c.order hcov]
  have h1 : endRemember cacheName t1 false c q
      = ⟨c, q ++ [t1], [], [.cacheNeedsFlushing cacheName], [], false⟩ := by
    simp [endRemember, hend]
  have h2 : endRemember cacheName t2 true c (q ++ [t1])
      = ⟨{ c with ended := true }, [], (flushPushes c.order c.files).1,
         [.cacheProcessed cacheName true, .cacheFlush cacheName true], t2 :: (q ++ [t1]), false⟩ := by
    simp [endRemember, hnc]
  simp only [h1, h2]
  have hcq : List.count t1 q = 0 := List.count_eq_zero.mpr hq
  simp [List.count_cons, List.count_append, hcq, Ne.symm ht]

/-- C2 witness: the deferred-flush protocol at a concrete cache and queue. -/
theorem c2_deferred_flush_fifo_witness :
    cSnapX.ended = false ∧ (∀ id ∈ cSnapX.order, (cSnapX.files id).isSome = true) ∧
    (1 : Nat) ∉ [5] ∧ (1 : Nat) ≠ 2 ∧
    ((endRemember "n" 1 false cSnapX [5]).pushed = [] ∧
     (endRemember "n" 1 false cSnapX [5]).flushedNow = [] ∧
     (∀ m, Event.cacheFlush "n" m ∉ (endRemember "n" 1 false cSnapX [5]).events) ∧
     (endRemember "n" 1 false cSnapX [5]).queue = [5] ++ [1] ∧
     (endRemember "n" 2 true (endRemember "n" 1 false cSnapX [5]).cache
         (endRemember "n" 1 false cSnapX [5]).queue).flushedNow = 2 :: ([5] ++ [1]) ∧
     (endRemember "n" 2 true (endRemember "n" 1 false cSnapX [5]).cache
         (endRemember "n" 1 false cSnapX [5]).queue).queue = [] ∧
     (endRemember "n" 2 true (endRemember "n" 1 false cSnapX [5]).cache
         (endRemember "n" 1 false cSnapX [5]).queue).flushedNow.count 1 = 1) :=
  ⟨rfl, by decide, by decide, by decide,
    c2_deferred_flush_fifo "n" 1 2 cSnapX [5] rfl (by decide) (by decide) (by decide)⟩

/-- C3 (counterexample): a flush does not skip entries lacking a snapshot:
on a cache whose one ordered entry has no snapshot, the flush pushes that
entry's undefined data, while the spec's restriction-to-snapshots sequence
is empty. -/
theorem c3_counterexample :
    (flushPushes cNoSnap.order cNoSnap.files).1 ≠ (flushSpecSkip cNoSnap).map some := by decide

/-- C3 (amended): when every path of `order` has an entry, the flush
pushes, in `order` sequence, each entry's stored snapshot, contributing an
undefined value for entries lacking one instead of skipping them, and does
not throw. -/
theorem c3_flush_follows_order (c : Cache)
    (hcov : ∀ id ∈ c.order, (c.files id).isSome = true) :
    (flushPushes c.order c.files).1
      = c.order.map (fun id => (c.files id).bind CacheEntry.data) ∧
    (flushPushes c.order c.files).2 = false := by
  rw [flushPushes_eq c.files c.order hcov]
  exact ⟨rfl, rfl⟩

/-- C3 witness: the flush sequence of a concrete one-entry cache. -/
theorem c3_flush_follows_order_witness :
    (∀ id ∈ cSnapXEnded.order, (cSnapXEnded.files id).isSome = true) ∧
    ((flushPushes cSnapXEnded.order cSnapXEnded.files).1
       = cSnapXEnded.order.map (fun id => (cSnapXEnded.files id).bind CacheEntry.data) ∧
     (flushPushes cSnapXEnded.order cSnapXEnded.files).2 = false) :=
  ⟨by decide, c3_flush_follows_order cSnapXEnded (by decide)⟩

/-- C4 (counterexample): the forwarding condition is JS falsiness of the
checksum, not incomputability: a file whose buffer is empty has the
computable checksum given by the empty string, equal to the stored one, yet
the master Cache Stage still forwards it, refuting the claimed
iff at this input. -/
theorem c4_counterexample :
    ¬ ((caching (fun s => s) false "n" true false cStoredEmpty fEmptyBuf).pushed = [fEmptyBuf] ↔
       ((cStoredEmpty.files fEmptyBuf.path).isNone = true ∨
        getChecksum (fun s => s) false fEmptyBuf = none ∨
        getChecksum (fun s => s) false fEmptyBuf
          ≠ (cStoredEmpty.files fEmptyBuf.path).bind CacheEntry.checksum)) := by
  decide

/-- C4 (amended): a master Cache Stage forwards an item iff its id is new
to the cache, or the computed checksum is JS-falsy (absent for stream
content, or the empty string), or it differs from the stored checksum;
other items are dropped; every forward stores the new checksum; and
exactly one file-modified event carrying the cache name and id is emitted
on forward, suppressed when this run created the cache. -/
theorem c4_master_forward_filter (hash : String → String) (useHash : Bool) (cacheName : String)
    (isNewCache : Bool) (c : Cache) (f : File) :
    ((caching hash useHash cacheName true isNewCache c f).pushed = [f] ∨
     (caching hash useHash cacheName true isNewCache c f).pushed = []) ∧
    ((caching hash useHash cacheName true isNewCache c f).pushed = [f] ↔
      ((c.files f.path).isNone = true ∨
       truthy (getChecksum hash useHash f) = false ∨
       getChecksum hash useHash f ≠ (c.files f.path).bind CacheEntry.checksum)) ∧
    ((caching hash useHash cacheName true isNewCache c f).pushed = [f] →
      ((caching hash useHash cacheName true isNewCache c f).cache.files f.path).bind
          CacheEntry.checksum = getChecksum hash useHash f) ∧
    ((caching hash useHash cacheName true isNewCache c f).events
      = if (caching hash useHash cacheName true isNewCache c f).pushed = [f] ∧ isNewCache = false
        then [.fileModified cacheName f.path] else []) := by
  obtain ⟨order, files, ended⟩ := c
  cases hm : files f.path with
  | none =>
    have hcond : truthy (getChecksum hash useHash f) = false ∨
        getChecksum hash useHash f ≠ (({} : CacheEntry)).checksum := by
      cases hchk : getChecksum hash useHash f with
      | none => left; rfl
      | some s =>
        cases hs : s.isEmpty
        · right; simp
        · left; simp [truthy, hs]
    rcases Bool.eq_false_or_eq_true isNewCache with hin | hin <;>
      simp [caching, hm, hin, hcond, FileMap.set_self]
  | some e =>
    by_cases hcond : truthy (getChecksum hash useHash f) = false ∨
        getChecksum hash useHash f ≠ e.checksum
    · rcases Bool.eq_false_or_eq_true isNewCache with hin | hin <;>
        simp [caching, hm, hin, hcond, FileMap.set_self]
    · push_neg at hcond
      have htr : truthy e.checksum = true := by
        rw [← hcond.2]
        exact Bool.ne_false_iff.mp hcond.1
      rcases Bool.eq_false_or_eq_true isNewCache with hin | hin <;>
        simp [caching, hm, hin, hcond.2, htr]

/-- C5: at attach time a run becomes master iff the cache's ended flag is
set, and an attach always leaves the flag cleared; and along every
operation sequence against a fresh cache name, at most one attached run
holds mastership with its remember stage still pending, with none once the
cache is quiescent. -/
theorem c5_master_exclusive (hash : String → String) (useHash : Bool) (cacheName : String)
    (ops : List Op) (s : Sys) :
    (s.cachePresent = true →
      (applyOp hash useHash cacheName s .attach).runs.getLast?
          = some ⟨s.cache.ended, false, false⟩ ∧
      (applyOp hash useHash cacheName s .attach).cache.ended = false) ∧
    activeMasters (runTrace hash useHash cacheName ops) ≤ 1 ∧
    ((runTrace hash useHash cacheName ops).cache.ended = true →
      activeMasters (runTrace hash useHash cacheName ops) = 0) := by
  constructor
  · intro hp
    cases he : s.cache.ended with
    | true =>
      have happ : applyOp hash useHash cacheName s .attach
          = ⟨true, { s.cache with ended := false }, s.queue, s.runs ++ [⟨true, false, false⟩]⟩ := by
        simp [applyOp, hp, he]
      rw [happ]
      exact ⟨by simp [List.getLast?_concat], rfl⟩
    | false =>
      have happ : applyOp hash useHash cacheName s .attach
          = ⟨true, s.cache, s.queue, s.runs ++ [⟨false, false, false⟩]⟩ := by
        simp [applyOp, hp, he]
      rw [happ]
      exact ⟨by simp [List.getLast?_concat], he⟩
  · have hinv := sysInv_foldl hash useHash cacheName ops initSys sysInv_initSys
    exact ⟨hinv.2.2, hinv.2.1⟩

/-- C6 (counterexample): an observer Remember Stage run does not store the
item it processes as the snapshot: on a concrete observer run the cache is
returned unchanged and the processed file's entry still has no snapshot. -/
theorem c6_counterexample :
    remember false cEntryA fEx = some cEntryA ∧
    (cEntryA.files fEx.path).bind CacheEntry.data = none := ⟨rfl, by decide⟩

/-- C6 (amended): snapshot capture is master-only, not unconditional: a
master Remember Stage stores the processed item as its entry's snapshot,
while an observer run leaves the cache untouched. -/
theorem c6_snapshot_master_only (c : Cache) (f : File) :
    (∀ e, c.files f.path = some e →
      remember true c f = some { c with files := c.files.set f.path { e with data := some f } }) ∧
    remember false c f = some c := by
  constructor
  · intro e he; simp [remember, he]
  · rfl

/-- C7 (counterexample): the cache-processed notification is not
unconditional: a concrete observer run ending while the cache is owned
emits no cache-processed event at all. -/
theorem c7_counterexample :
    Event.cacheProcessed "n" false ∉ (endRemember "n" 1 false cObs []).events := by decide

/-- C7 (amended): endRemember emits the cache-processed notification iff
the run is master or the cache is quiescent; on the deferred branch only
cache-needsFlushing is emitted. -/
theorem c7_cache_processed_authoritative (cacheName : String) (t : Nat) (m : Bool)
    (c : Cache) (q : List Nat) :
    (Event.cacheProcessed cacheName m ∈ (endRemember cacheName t m c q).events)
      ↔ (m || c.ended) = true := by
  by_cases h : (m || c.ended) = true
  · simp only [endRemember, h, if_true]
    by_cases hcr : (flushPushes c.order c.files).2 <;> simp [hcr]
  · simp only [endRemember, h, if_false]
    simp only [Bool.or_eq_true, not_or, Bool.not_eq_true] at h
    simp [h.1, h.2]

/-- C8: against a pre-existing cache, a master run inserts every newly
discovered id at position 0 of `order`: `previousFile` is a dead per-call
local, so after two fresh files the second sits before the first instead
of immediately after it as the claim states. -/
theorem c8_positional_insert_failing_input :
    (caching (fun s => s) false "n" true false
        (caching (fun s => s) false "n" true false cPre fNew1).cache fNew2).cache.order
      = ["f2", "f1", "x"] ∧
    (["f2", "f1", "x"] : List String) ≠ ["f1", "f2", "x"] := by decide

/-- C9: a master Remember Stage's per-item handler is total exactly when
the cache already has an entry for the item's id: it raises a TypeError
(`none`) iff the entry is missing, and otherwise stores the snapshot into
the existing entry rather than creating or skipping anything. -/
theorem c9_remember_requires_entry (c : Cache) (f : File) :
    (remember true c f = none ↔ c.files f.path = none) ∧
    (∀ e, c.files f.path = some e →
      remember true c f = some { c with files := c.files.set f.path { e with data := some f } }) := by
  constructor
  · cases hm : c.files f.path <;> simp [remember, hm]
  · intro e he; simp [remember, he]

/-- C10: the falsy names 0 and the empty string resolve to the default
cache name in create, while cacheFor (and forget and forgetAll) address
the literal key, so cacheFor 0 does not return the cache create 0 attaches
to: starting from an empty registry, create 0 populates the default key
and cacheFor 0 still finds nothing, and forgetAll 0 leaves the default
cache in place. -/
theorem c10_falsy_name_resolution :
    resolveCreateName (.num 0) = defaultName ∧
    resolveCreateName (.str "") = defaultName ∧
    literalKey (.num 0) = "0" ∧
    literalKey (.str "") = "" ∧
    (createAttach emptyReg (.num 0)).key = defaultName ∧
    ((createAttach emptyReg (.num 0)).reg defaultName).isSome = true ∧
    (cacheForArg (createAttach emptyReg (.num 0)).reg (.num 0)).isNone = true ∧
    (cacheForArg (createAttach emptyReg (.str "")).reg (.str "")).isNone = true ∧
    ((forgetAllArg (createAttach emptyReg (.num 0)).reg (.num 0)) defaultName).isSome = true := by
  decide

end GCR
